import Mathlib

/-!
Shallow embedding of `helpers.py`: data-manipulation utilities for chemical
reaction mechanisms (species tables, reaction tables, mechanism dictionaries).

Modelling conventions:
* Python strings are Lean `String`s; character-level operations (`str.endswith`,
  `re.sub` on a trailing character) are expressed through `String.data`.
* Python exceptions (`AssertionError`, `KeyError`, `IndexError`, the
  `TypeError` of `functools.reduce` on an empty iterable) are an `Err` value in
  an `Except Err` result.
* The external domain libraries (`automol`, `chemkin_io`, `autoreact`) are
  opaque collaborators: they are parameters (the `Ext` structure and explicit
  function arguments), never reimplemented.
* `automol.amchi.is_enantiomer` is modelled on `Option String` because the
  reaction helpers feed it `dict.get` results, which may be Python `None`;
  a genuine string argument is passed as `some chi`.
* pandas `DataFrame`s are a column-name list plus a list of rows, each row a
  list of cell values; a cell is `Option String` with `none` playing the role
  of NaN/missing.  Cell equality is plain decidable equality (the NaN ≠ NaN
  refinement of pandas is irrelevant to the properties proved here).
-/

namespace RadicalStereo

/-- A cell value of a table: `none` models a missing value (NaN). -/
abbrev Val := Option String

/-- Python exceptions raised (directly or via delegated calls) by the module. -/
inductive Err where
  /-- `AssertionError` with the "Missing species" message payload of
  `species_for_mechanism` (the payload is the set it interpolates). -/
  | assertionMsg (missing : List String)
  /-- A bare `assert` failure (`racemic_species_name`, `reflect_species_name`). -/
  | assertionError
  /-- `KeyError` for a missing dictionary key or column label. -/
  | keyError (k : String)
  /-- `TypeError` from `functools.reduce` applied to an empty list of
  selectors with no initial value. -/
  | reduceEmptyError
  /-- `IndexError` from `.iloc[0]` on an empty frame. -/
  | indexError
deriving DecidableEq, Repr

instance {e a : Type} [DecidableEq e] [DecidableEq a] :
    DecidableEq (Except e a)
  | .error x, .error y =>
    if h : x = y then .isTrue (by rw [h])
    else .isFalse (fun hc => h (Except.error.inj hc))
  | .error _, .ok _ => .isFalse (fun hc => Except.noConfusion hc)
  | .ok _, .error _ => .isFalse (fun hc => Except.noConfusion hc)
  | .ok x, .ok y =>
    if h : x = y then .isTrue (by rw [h])
    else .isFalse (fun hc => h (Except.ok.inj hc))

/-- The external collaborators used by the naming helpers, treated as opaque:
`automol.amchi.is_enantiomer`, `automol.amchi.is_enantiomer_reaction`,
`chemkin_io.parser.reaction.get_rxn_name` and
`chemkin_io.writer.format_rxn_name`. -/
structure Ext where
  is_enantiomer : Option String → Bool
  is_enantiomer_reaction : List (Option String) → List (Option String) → Bool
  get_rxn_name : String → List String × List String × Option String
  format_rxn_name : List String × List String × Option String → String

/-- `name.endswith("0") or name.endswith("1")`, the `assert` guard of the
species naming helpers. -/
def ends01 (name : String) : Prop :=
  name.data.getLast? = some '0' ∨ name.data.getLast? = some '1'

instance (name : String) : Decidable (ends01 name) := by
  unfold ends01; infer_instance

/-- Replace the last character of a nonempty string (the effect of
`re.sub("[01]$", c, name)` once the trailing character is known to match). -/
def subLast (name : String) (c : Char) : String :=
  ⟨name.data.dropLast ++ [c]⟩

/-- `racemic_species_name(name, chi)` from `helpers.py`: achiral identifiers
leave the name unchanged; chiral ones require a trailing `0`/`1`, replaced by
`r`. -/
def racemic_species_name (E : Ext) (name : String) (chi : Option String) :
    Except Err String :=
  if E.is_enantiomer chi = false then .ok name
  else if ends01 name then .ok (subLast name 'r')
  else .error .assertionError

/-- `reflect_species_name(name, chi)` from `helpers.py`: achiral identifiers
leave the name unchanged; chiral ones require a trailing `0`/`1` and swap it
(`re.sub("1$","0",name) if name.endswith("1") else re.sub("0$","1",name)`). -/
def reflect_species_name (E : Ext) (name : String) (chi : Option String) :
    Except Err String :=
  if E.is_enantiomer chi = false then .ok name
  else if ends01 name then
    .ok (if name.data.getLast? = some '1' then subLast name '0' else subLast name '1')
  else .error .assertionError

/-- Concatenating a one-character string puts that character last. -/
theorem data_append_char (s : String) (c : Char) :
    (s ++ String.mk [c]).data = s.data ++ [c] := by
  cases s; rfl

theorem getLast?_of_append_char (s : String) (c : Char) :
    (s ++ String.mk [c]).data.getLast? = some c := by
  rw [data_append_char]; exact List.getLast?_concat _

theorem subLast_append_char (s : String) (c c' : Char) :
    subLast (s ++ String.mk [c]) c' = s ++ String.mk [c'] := by
  apply String.ext
  rw [subLast, data_append_char, data_append_char, List.dropLast_concat]

/-- A list whose last element is known is its `dropLast` followed by it. -/
theorem dropLast_append_getLast?_eq {l : List Char} {c : Char}
    (h : l.getLast? = some c) : l.dropLast ++ [c] = l := by
  induction l with
  | nil => simp at h
  | cons a t ih =>
    cases t with
    | nil => simp_all
    | cons b u =>
      rw [List.getLast?_cons_cons] at h
      simpa using ih h

theorem subLast_subLast (name : String) (c c' : Char) :
    subLast (subLast name c) c' = subLast name c' := by
  apply String.ext
  simp only [subLast, List.dropLast_concat]

theorem getLast?_subLast (name : String) (c : Char) :
    (subLast name c).data.getLast? = some c :=
  List.getLast?_concat _

theorem subLast_self {name : String} {c : Char}
    (h : name.data.getLast? = some c) : subLast name c = name := by
  apply String.ext
  simpa [subLast] using dropLast_append_getLast?_eq h

/-- A concrete chirality oracle for witnesses: exactly the identifier
`"CHI"` counts as an enantiomer. -/
def extChiral : Ext where
  is_enantiomer := fun c => decide (c = some "CHI")
  is_enantiomer_reaction := fun r p => decide (r = p)
  get_rxn_name := fun _ => ([], [], none)
  format_rxn_name := fun _ => ""

/-- C2: `racemic_species_name` returns the name unchanged for a non-chiral
identifier; for a chiral identifier it fails the internal assertion unless the
name ends in `0` or `1`, and otherwise replaces that trailing digit with `r`,
so both `X0` and `X1` map to `Xr`. -/
theorem C2_racemic_species_name (E : Ext) (chi : Option String)
    (s name : String) :
    (E.is_enantiomer chi = false → racemic_species_name E name chi = .ok name)
    ∧ (E.is_enantiomer chi = true →
        (¬ ends01 name →
          racemic_species_name E name chi = .error .assertionError)
        ∧ racemic_species_name E (s ++ "0") chi = .ok (s ++ "r")
        ∧ racemic_species_name E (s ++ "1") chi = .ok (s ++ "r")) := by
  refine ⟨fun h => by simp [racemic_species_name, h], fun h => ⟨?_, ?_, ?_⟩⟩
  · intro hne
    simp [racemic_species_name, h, hne]
  · have h0 : ends01 (s ++ "0") := Or.inl (getLast?_of_append_char s '0')
    simp only [racemic_species_name, h, Bool.true_eq_false, if_false, if_pos h0]
    rw [show ("0" : String) = String.mk ['0'] from rfl,
      subLast_append_char s '0' 'r']
  · have h1 : ends01 (s ++ "1") := Or.inr (getLast?_of_append_char s '1')
    simp only [racemic_species_name, h, Bool.true_eq_false, if_false, if_pos h1]
    rw [show ("1" : String) = String.mk ['1'] from rfl,
      subLast_append_char s '1' 'r']

/-- Witness for C2 at a concrete chiral identifier and name stem `X`. -/
theorem C2_racemic_species_name_witness :
    extChiral.is_enantiomer (some "CHI") = true
    ∧ racemic_species_name extChiral ("X" ++ "0") (some "CHI") =
        .ok ("X" ++ "r")
    ∧ racemic_species_name extChiral ("X" ++ "1") (some "CHI") =
        .ok ("X" ++ "r") :=
  ⟨by decide,
    ((C2_racemic_species_name extChiral (some "CHI") "X" "Q").2 (by decide)).2.1,
    ((C2_racemic_species_name extChiral (some "CHI") "X" "Q").2 (by decide)).2.2⟩

/-- C3: `reflect_species_name` swaps a trailing `0`/`1` for a chiral
identifier, is the identity for a non-chiral one, and is an involution: when a
call succeeds, reflecting its result recovers the original name. -/
theorem C3_reflect_species_name (E : Ext) (chi : Option String)
    (s name : String) :
    (E.is_enantiomer chi = true →
        reflect_species_name E (s ++ "0") chi = .ok (s ++ "1")
        ∧ reflect_species_name E (s ++ "1") chi = .ok (s ++ "0"))
    ∧ (E.is_enantiomer chi = false → reflect_species_name E name chi = .ok name)
    ∧ (∀ m, reflect_species_name E name chi = .ok m →
        reflect_species_name E m chi = .ok name) := by
  refine ⟨fun h => ⟨?_, ?_⟩, fun h => by simp [reflect_species_name, h], ?_⟩
  · have h0 : ends01 (s ++ "0") := Or.inl (getLast?_of_append_char s '0')
    have hg := getLast?_of_append_char s '0'
    simp only [reflect_species_name, h, Bool.true_eq_false, if_false,
      if_pos h0, hg]
    rw [if_neg (by simp), show ("0" : String) = String.mk ['0'] from rfl,
      subLast_append_char s '0' '1']
  · have h1 : ends01 (s ++ "1") := Or.inr (getLast?_of_append_char s '1')
    have hg := getLast?_of_append_char s '1'
    simp only [reflect_species_name, h, Bool.true_eq_false, if_false,
      if_pos h1, hg]
    rw [if_pos trivial, show ("1" : String) = String.mk ['1'] from rfl,
      subLast_append_char s '1' '0']
  · intro m hm
    by_cases hE : E.is_enantiomer chi = false
    · simp [reflect_species_name, hE] at hm ⊢
      exact hm.symm
    · rw [Bool.not_eq_false] at hE
      by_cases h01 : ends01 name
      · simp only [reflect_species_name, hE, Bool.true_eq_false, if_false,
          if_pos h01, Except.ok.injEq] at hm
        by_cases hl : name.data.getLast? = some '1'
        · rw [if_pos hl] at hm
          subst hm
          have hg : (subLast name '0').data.getLast? = some '0' :=
            getLast?_subLast name '0'
          have h01' : ends01 (subLast name '0') := Or.inl hg
          simp only [reflect_species_name, hE, Bool.true_eq_false, if_false,
            if_pos h01', hg]
          rw [if_neg (by simp), subLast_subLast, subLast_self hl]
        · rw [if_neg hl] at hm
          subst hm
          have hl0 : name.data.getLast? = some '0' := h01.resolve_right hl
          have hg : (subLast name '1').data.getLast? = some '1' :=
            getLast?_subLast name '1'
          have h01' : ends01 (subLast name '1') := Or.inr hg
          simp only [reflect_species_name, hE, Bool.true_eq_false, if_false,
            if_pos h01', hg]
          rw [if_pos trivial, subLast_subLast, subLast_self hl0]
      · simp [reflect_species_name, hE, h01] at hm

/-- Witness for C3 at a concrete chiral identifier: `X0 ↦ X1`, and the
involution clause applied to that result recovers `X0`. -/
theorem C3_reflect_species_name_witness :
    reflect_species_name extChiral "X0" (some "CHI") = .ok "X1"
    ∧ reflect_species_name extChiral "X1" (some "CHI") = .ok "X0" :=
  ⟨((C3_reflect_species_name extChiral (some "CHI") "X" "X0").1 (by decide)).1,
    (C3_reflect_species_name extChiral (some "CHI") "X" "X0").2.2 "X1"
      ((C3_reflect_species_name extChiral (some "CHI") "X" "X0").1
        (by decide)).1⟩

/-- A pandas `DataFrame`: ordered column labels and rows of cell values.
A well-formed frame has every row as long as `cols` (stated as a hypothesis
where a proof needs it). -/
structure DF where
  cols : List String
  rows : List (List Val)
deriving DecidableEq, Repr

/-- The cell of a row at (the first occurrence of) column `k`; `none` when the
label is absent. -/
def getCell : List String → List Val → String → Val
  | [], _, _ => none
  | _ :: _, [], _ => none
  | c :: cs, v :: vs, k => if c = k then v else getCell cs vs k

/-- Restrict a row to the cells of the columns satisfying `p`. -/
def keepCells (p : String → Bool) : List String → List Val → List Val
  | [], _ => []
  | _ :: _, [] => []
  | c :: cs, v :: vs =>
    if p c then v :: keepCells p cs vs else keepCells p cs vs

/-- The regex `_y$` of `with_columns_from_other`: the label ends in `_y`. -/
def ends_y (c : String) : Bool :=
  match c.data.reverse with
  | 'y' :: '_' :: _ => true
  | _ => false

/-- `df.drop(df.filter(regex="_y$").columns, axis=1)`: remove every column
whose label ends in `_y`. -/
def dropYColumns (df : DF) : DF :=
  ⟨df.cols.filter (fun c => !ends_y c),
    df.rows.map (fun r => keepCells (fun c => !ends_y c) df.cols r)⟩

/-- Keep the first occurrence of each key, `seen` holding the keys already
emitted. -/
def firstOccurrences {α β : Type} [DecidableEq β] (f : α → β) :
    List β → List α → List α
  | _, [] => []
  | seen, x :: xs =>
    if f x ∈ seen then firstOccurrences f seen xs
    else x :: firstOccurrences f (f x :: seen) xs

/-- `drop_duplicates` / `duplicated(keep="first")`: keep the first row for
each key value, preserving order. -/
def dropDuplicatesBy {α β : Type} [DecidableEq β] (f : α → β) (l : List α) :
    List α :=
  firstOccurrences f [] l

/-- The tuple of key-column values of a row, used as the join/dedup key. -/
def keyProj (K cols : List String) (r : List Val) : List Val :=
  K.map (fun k => getCell cols r k)

/-- The labels `pandas.merge` appends to the left frame: the right frame's
non-key columns, suffixed with `_y` on a collision with a left label
(`suffixes=(None, "_y")` leaves left labels untouched). -/
def mergeRenamedCols (df other : DF) (K : List String) : List String :=
  (other.cols.filter (fun c => decide (c ∉ K))).map
    (fun c => if c ∈ df.cols then c ++ "_y" else c)

/-- The rows of a left merge: each left row is paired with every key-matching
right row's non-key cells, or NaN-filled when no right row matches. -/
def leftMergeRows (dfCols : List String) (dfRows : List (List Val))
    (otherCols : List String) (otherRows : List (List Val)) (K : List String)
    (extraLen : Nat) : List (List Val) :=
  dfRows.flatMap (fun r =>
    let ms := otherRows.filter
      (fun s => decide (keyProj K otherCols s = keyProj K dfCols r))
    if ms = [] then [r ++ List.replicate extraLen none]
    else ms.map (fun s => r ++ keepCells (fun c => decide (c ∉ K)) otherCols s))

/-- `with_columns_from_other(df, other_df, merge_on)` from `helpers.py`:
deduplicate `other_df` on the merge keys, left-merge with suffixes
`(None, "_y")`, then drop every column matching `_y$`.  A merge key absent
from either frame is a `KeyError` (raised by `drop_duplicates` / `merge`). -/
def with_columns_from_other (df other : DF) (K : List String) :
    Except Err DF :=
  if ∀ k ∈ K, k ∈ other.cols then
    if ∀ k ∈ K, k ∈ df.cols then
      .ok (dropYColumns ⟨df.cols ++ mergeRenamedCols df other K,
        leftMergeRows df.cols df.rows other.cols
          (dropDuplicatesBy (keyProj K other.cols) other.rows) K
          (mergeRenamedCols df other K).length⟩)
    else .error (.keyError ((K.filter (fun k => decide (k ∉ df.cols))).headD ""))
  else .error (.keyError ((K.filter (fun k => decide (k ∉ other.cols))).headD ""))

/-- The boolean selector `df[k] == v`. -/
def selOf (df : DF) (kv : String × Val) : List Bool :=
  df.rows.map (fun r => decide (getCell df.cols r kv.1 = kv.2))

/-- `lookup_rows(df, col_val_dct)` from `helpers.py`: AND the selectors with
`functools.reduce` (a `TypeError` on an empty predicate map) and keep the rows
the mask selects. -/
def lookup_rows (df : DF) (cvs : List (String × Val)) : Except Err DF :=
  match cvs.map (selOf df) with
  | [] => .error .reduceEmptyError
  | m :: ms =>
    .ok ⟨df.cols,
      ((df.rows.zip (ms.foldl (fun x y => x.zipWith (· && ·) y) m)).filter
        (fun p => p.2)).map Prod.fst⟩

/-- `lookup_row`: the first row of `lookup_rows`, an `IndexError` when none
matches. -/
def lookup_row (df : DF) (cvs : List (String × Val)) : Except Err (List Val) :=
  match lookup_rows df cvs with
  | .error e => .error e
  | .ok sdf =>
    match sdf.rows with
    | [] => .error .indexError
    | r :: _ => .ok r

/-- `lookup_value`: one field of the first matching row. -/
def lookup_value (df : DF) (key : String) (cvs : List (String × Val)) :
    Except Err Val :=
  match lookup_row df cvs with
  | .error e => .error e
  | .ok r =>
    if key ∈ df.cols then .ok (getCell df.cols r key)
    else .error (.keyError key)

/-- Effectful map over a list, propagating the first error: the semantics of a
Python list comprehension whose body may raise. -/
def mapME {α β : Type} (f : α → Except Err β) : List α → Except Err (List β)
  | [] => .ok []
  | a :: l =>
    match f a with
    | .error e => .error e
    | .ok b =>
      match mapME f l with
      | .error e => .error e
      | .ok bs => .ok (b :: bs)

/-- `lookup_value_series`: one field per predicate map, first failure wins. -/
def lookup_value_series (df : DF) (key : String)
    (cvss : List (List (String × Val))) : Except Err (List Val) :=
  match mapME (lookup_row df) cvss with
  | .error e => .error e
  | .ok rows =>
    mapME (fun r =>
      if key ∈ df.cols then .ok (getCell df.cols r key)
      else .error (.keyError key)) rows

/-- Keys already emitted never reappear among the kept rows. -/
theorem firstOccurrences_key_not_seen {α β : Type} [DecidableEq β]
    (f : α → β) (l : List α) :
    ∀ (seen : List β) (y : α), y ∈ firstOccurrences f seen l → f y ∉ seen := by
  induction l with
  | nil => intro seen y h; simp [firstOccurrences] at h
  | cons x xs ih =>
    intro seen y h
    rw [firstOccurrences] at h
    by_cases hx : f x ∈ seen
    · rw [if_pos hx] at h
      exact ih seen y h
    · rw [if_neg hx] at h
      rcases List.mem_cons.mp h with rfl | h'
      · exact hx
      · exact fun hc => ih _ y h' (List.mem_cons_of_mem _ hc)

/-- The kept rows have pairwise distinct keys. -/
theorem firstOccurrences_pairwise {α β : Type} [DecidableEq β]
    (f : α → β) (l : List α) :
    ∀ seen : List β,
      (firstOccurrences f seen l).Pairwise (fun a b => f a ≠ f b) := by
  induction l with
  | nil => intro seen; exact List.Pairwise.nil
  | cons x xs ih =>
    intro seen
    rw [firstOccurrences]
    by_cases hx : f x ∈ seen
    · rw [if_pos hx]; exact ih seen
    · rw [if_neg hx]
      refine List.Pairwise.cons (fun y hy => ?_) (ih _)
      have := firstOccurrences_key_not_seen f xs (f x :: seen) y hy
      exact fun hc => this (hc ▸ List.mem_cons_self _ _)

theorem dropDuplicatesBy_pairwise {α β : Type} [DecidableEq β]
    (f : α → β) (l : List α) :
    (dropDuplicatesBy f l).Pairwise (fun a b => f a ≠ f b) :=
  firstOccurrences_pairwise f l []

/-- Rows with pairwise distinct keys contain at most one row per key. -/
theorem pairwise_filter_key_length_le_one {α β : Type} [DecidableEq β]
    (f : α → β) (k : β) :
    ∀ l : List α, l.Pairwise (fun a b => f a ≠ f b) →
      (l.filter (fun s => decide (f s = k))).length ≤ 1 := by
  intro l
  induction l with
  | nil => intro _; simp
  | cons a t ih =>
    intro h
    rw [List.pairwise_cons] at h
    by_cases hf : f a = k
    · have ht : t.filter (fun s => decide (f s = k)) = [] := by
        apply List.filter_eq_nil_iff.mpr
        intro s hs
        simpa using hf ▸ (h.1 s hs).symm
      simp [List.filter_cons, hf, ht]
    · simpa [List.filter_cons, hf] using ih h.2

/-- The single merged row produced for a left row once the right side has
pairwise-distinct keys: the matched right row's non-key cells, or NaNs. -/
def mergeOneRow (dfCols otherCols : List String)
    (otherRows : List (List Val)) (K : List String) (extraLen : Nat)
    (r : List Val) : List Val :=
  let ms := otherRows.filter
    (fun s => decide (keyProj K otherCols s = keyProj K dfCols r))
  if ms = [] then r ++ List.replicate extraLen none
  else r ++ keepCells (fun c => decide (c ∉ K)) otherCols (ms.headD [])

/-- After deduplication every left row matches at most one right row, so the
left merge is a plain `map` over the left rows. -/
theorem leftMergeRows_eq_map (dfCols : List String)
    (dfRows : List (List Val)) (otherCols : List String)
    (otherRows : List (List Val)) (K : List String) (extraLen : Nat)
    (hpw : otherRows.Pairwise
      (fun a b => keyProj K otherCols a ≠ keyProj K otherCols b)) :
    leftMergeRows dfCols dfRows otherCols otherRows K extraLen
      = dfRows.map (mergeOneRow dfCols otherCols otherRows K extraLen) := by
  induction dfRows with
  | nil => rfl
  | cons r t ih =>
    rw [leftMergeRows, List.flatMap_cons] at *
    rw [List.map_cons, ← ih]
    by_cases hms : otherRows.filter
        (fun s => decide (keyProj K otherCols s = keyProj K dfCols r)) = []
    · simp only [mergeOneRow, hms, if_pos rfl]
      rfl
    · rcases List.exists_cons_of_ne_nil hms with ⟨s, rest, hcons⟩
      have hle := pairwise_filter_key_length_le_one
        (fun a => keyProj K otherCols a) (keyProj K dfCols r) otherRows hpw
      rw [hcons] at hle
      have hrest : rest = [] := by
        simpa [List.length_eq_zero] using Nat.le_of_succ_le_succ hle
      subst hrest
      simp only [mergeOneRow, hcons, if_neg hms]
      simp [hcons]

theorem getCell_nil_row (cols : List String) (k : String) :
    getCell cols [] k = none := by
  cases cols <;> rfl

/-- A cell of a column of the left block of an appended row is read from the
left block. -/
theorem getCell_append_left (cols₁ : List String) (r₁ : List Val)
    (cols₂ : List String) (r₂ : List Val) (c : String)
    (hlen : r₁.length = cols₁.length) (hc : c ∈ cols₁) :
    getCell (cols₁ ++ cols₂) (r₁ ++ r₂) c = getCell cols₁ r₁ c := by
  induction cols₁ generalizing r₁ with
  | nil => exact absurd hc (List.not_mem_nil c)
  | cons a cs ih =>
    cases r₁ with
    | nil => simp at hlen
    | cons v vs =>
      by_cases hac : a = c
      · simp [getCell, hac]
      · rcases List.mem_cons.mp hc with h | h
        · exact absurd h.symm hac
        · simp only [List.cons_append, getCell, if_neg hac]
          exact ih vs (by simpa using hlen) h

/-- Dropping columns that fail `p` does not change the cells of columns that
satisfy `p`. -/
theorem getCell_keepCells (p : String → Bool) (cols : List String)
    (r : List Val) (k : String) (hk : p k = true) :
    getCell (cols.filter p) (keepCells p cols r) k = getCell cols r k := by
  induction cols generalizing r with
  | nil => rfl
  | cons c cs ih =>
    cases r with
    | nil =>
      rw [keepCells, getCell_nil_row, getCell_nil_row]
    | cons v vs =>
      by_cases hp : p c = true
      · rw [keepCells, if_pos hp, List.filter_cons_of_pos hp]
        by_cases hck : c = k
        · simp [getCell, hck]
        · simp only [getCell, if_neg hck]
          exact ih vs
      · have hck : c ≠ k := fun h => hp (h ▸ hk)
        rw [keepCells, if_neg hp, List.filter_cons_of_neg hp]
        simp only [getCell, if_neg hck]
        exact ih vs

/-- Appending the `_y` suffix makes `ends_y` true. -/
theorem ends_y_append (c : String) : ends_y (c ++ "_y") = true := by
  have hdat : (c ++ "_y").data = c.data ++ ['_', 'y'] := by cases c; rfl
  simp [ends_y, hdat, List.reverse_append]

/-- Inversion of a successful `with_columns_from_other` call: both merge-key
checks passed and the result is the dropped-suffix merge. -/
theorem with_columns_from_other_ok_elim {df other : DF} {K : List String}
    {res : DF} (hok : with_columns_from_other df other K = .ok res) :
    (∀ k ∈ K, k ∈ other.cols) ∧ (∀ k ∈ K, k ∈ df.cols)
    ∧ res = dropYColumns ⟨df.cols ++ mergeRenamedCols df other K,
        leftMergeRows df.cols df.rows other.cols
          (dropDuplicatesBy (keyProj K other.cols) other.rows) K
          (mergeRenamedCols df other K).length⟩ := by
  by_cases h1 : ∀ k ∈ K, k ∈ other.cols
  · by_cases h2 : ∀ k ∈ K, k ∈ df.cols
    · rw [with_columns_from_other, if_pos h1, if_pos h2] at hok
      exact ⟨h1, h2, (Except.ok.inj hok).symm⟩
    · rw [with_columns_from_other, if_pos h1, if_neg h2] at hok
      exact absurd hok (by simp)
  · rw [with_columns_from_other, if_neg h1] at hok
    exact absurd hok (by simp)

/-- The merged row of a left row always extends that row. -/
theorem mergeOneRow_eq_append (dfCols otherCols : List String)
    (otherRows : List (List Val)) (K : List String) (extraLen : Nat)
    (r : List Val) :
    ∃ e, mergeOneRow dfCols otherCols otherRows K extraLen r = r ++ e := by
  rw [mergeOneRow]
  split
  · exact ⟨_, rfl⟩
  · exact ⟨_, rfl⟩

/-- C4 (amended): for merge keys present in both frames, on a well-formed
first table `with_columns_from_other` preserves the row count exactly, keeps
the first table's cell values in every column of the first table whose label
does not end in `_y`, and every added column is a genuinely new label taken
from the second table.  (As written the claim is false: a column whose label
ends in `_y` is dropped even when it exists in both tables — see the
counterexample.) -/
theorem C4_with_columns_from_other_amended (df other : DF) (K : List String)
    (res : DF) ( _hK : K ≠ [])
    (hok : with_columns_from_other df other K = .ok res)
    (hwf : ∀ r ∈ df.rows, r.length = df.cols.length) :
    res.rows.length = df.rows.length
    ∧ (∀ i c, c ∈ df.cols → ends_y c = false →
        getCell res.cols (res.rows.getD i []) c
          = getCell df.cols (df.rows.getD i []) c)
    ∧ (∀ c ∈ res.cols, c ∉ df.cols → c ∈ other.cols ∧ ends_y c = false) := by
  obtain ⟨-, -, hres⟩ := with_columns_from_other_ok_elim hok
  subst hres
  rw [dropYColumns]
  rw [leftMergeRows_eq_map _ _ _ _ _ _
    (dropDuplicatesBy_pairwise (keyProj K other.cols) other.rows)]
  refine ⟨by simp, ?_, ?_⟩
  · intro i c hc hcy
    have hp : (!ends_y c) = true := by simp [hcy]
    simp only [List.map_map, List.getD_eq_getElem?_getD, List.getElem?_map]
    cases hgi : df.rows[i]? with
    | none => simp [getCell_nil_row]
    | some r =>
      simp only [Option.map_some', Option.getD_some, Function.comp_apply]
      obtain ⟨e, he⟩ := mergeOneRow_eq_append df.cols other.cols
        (dropDuplicatesBy (keyProj K other.cols) other.rows) K
        (mergeRenamedCols df other K).length r
      rw [he, getCell_keepCells _ _ _ _ hp,
        getCell_append_left _ _ _ _ _ (hwf r (List.getElem?_mem hgi)) hc]
  · intro c hcres hcdf
    simp only [List.mem_filter] at hcres
    obtain ⟨hmem, hp⟩ := hcres
    rcases List.mem_append.mp hmem with h | h
    · exact absurd h hcdf
    · rw [mergeRenamedCols] at h
      obtain ⟨c0, hc0, hc0e⟩ := List.mem_map.mp h
      obtain ⟨hc0o, -⟩ := List.mem_filter.mp hc0
      by_cases hdf : c0 ∈ df.cols
      · rw [if_pos hdf] at hc0e
        rw [← hc0e, ends_y_append] at hp
        simp at hp
      · rw [if_neg hdf] at hc0e
        subst hc0e
        exact ⟨hc0o, by simpa using hp⟩

/-- Witness for C4 (amended) at a concrete one-row merge. -/
theorem C4_with_columns_from_other_amended_witness :
    (DF.mk ["k", "a", "b"] [[some "1", some "x", some "z"]]).rows.length
      = (DF.mk ["k", "a"] [[some "1", some "x"]]).rows.length
    ∧ getCell ["k", "a", "b"] [some "1", some "x", some "z"] "a"
        = getCell ["k", "a"] [some "1", some "x"] "a" :=
  ⟨(C4_with_columns_from_other_amended ⟨["k", "a"], [[some "1", some "x"]]⟩
      ⟨["k", "b"], [[some "1", some "z"]]⟩ ["k"]
      ⟨["k", "a", "b"], [[some "1", some "x", some "z"]]⟩
      (by decide) (by decide) (by decide)).1,
    (C4_with_columns_from_other_amended ⟨["k", "a"], [[some "1", some "x"]]⟩
      ⟨["k", "b"], [[some "1", some "z"]]⟩ ["k"]
      ⟨["k", "a", "b"], [[some "1", some "x", some "z"]]⟩
      (by decide) (by decide) (by decide)).2.1 0 "a" (by decide) (by decide)⟩

/-- Counterexample to C4 as stated: with a column `c_y` present in both
frames, the merge renames the right copy to `c_y_y` and the `_y$` drop then
removes both, so the first table's original `c_y` values are not kept. -/
theorem C4_with_columns_from_other_counterexample :
    with_columns_from_other ⟨["k", "c_y"], [[some "1", some "x"]]⟩
        ⟨["k", "c_y"], [[some "1", some "z"]]⟩ ["k"]
      = .ok ⟨["k"], [[some "1"]]⟩
    ∧ "c_y" ∈ (["k", "c_y"] : List String)
    ∧ "c_y" ∉ (["k"] : List String)
    ∧ getCell ["k"] [some "1"] "c_y"
        ≠ getCell ["k", "c_y"] [some "1", some "x"] "c_y" := by
  decide

/-- C10: every column of the merged result whose label ends in `_y` is
dropped, including a column of the first table that originally ended in `_y`
and did not arise from a merge collision (concretely, `a_y`). -/
theorem C10_y_columns_always_dropped :
    (∀ df other K res, with_columns_from_other df other K = .ok res →
      ∀ c ∈ res.cols, ends_y c = false)
    ∧ with_columns_from_other ⟨["k", "a_y"], [[some "1", some "v"]]⟩
        ⟨["k", "b"], [[some "1", some "w"]]⟩ ["k"]
      = .ok ⟨["k", "b"], [[some "1", some "w"]]⟩
    ∧ "a_y" ∈ (["k", "a_y"] : List String)
    ∧ "a_y" ∉ (["k", "b"] : List String) := by
  refine ⟨?_, by decide, by decide, by decide⟩
  intro df other K res hok c hc
  obtain ⟨-, -, hres⟩ := with_columns_from_other_ok_elim hok
  subst hres
  rw [dropYColumns] at hc
  simpa using (List.mem_filter.mp hc).2

/-- Witness for C10's universal clause at the concrete merge above. -/
theorem C10_y_columns_always_dropped_witness : ends_y "k" = false :=
  C10_y_columns_always_dropped.1 ⟨["k", "a_y"], [[some "1", some "v"]]⟩
    ⟨["k", "b"], [[some "1", some "w"]]⟩ ["k"]
    ⟨["k", "b"], [[some "1", some "w"]]⟩ (by decide) "k" (by decide)

/-- A parsed CHEMKIN reaction name, the key type of a mechanism dictionary:
reactant names, product names, and the optional third body. -/
abbrev RxnKey := List String × List String × Option String

/-- Python `set(a) == set(b)` on name lists. -/
def setEq (a b : List String) : Bool :=
  a.all (fun x => decide (x ∈ b)) && b.all (fun x => decide (x ∈ a))

/-- Python `set(a) - set(b)` on name lists (as a duplicate-free list). -/
def pySetDiff (a b : List String) : List String :=
  (a.filter (fun x => decide (x ∉ b))).dedup

/-- `{s for r, p, _ in rxn_dct for s in r + p}`: every species name referenced
as a reactant or product by some key of the mechanism dictionary. -/
def mechSpeciesNames {P : Type} (rxn_dct : List (RxnKey × P)) : List String :=
  (rxn_dct.map (fun kp => kp.1.1 ++ kp.1.2.1)).flatten

/-- `species_for_mechanism(spc_df, rxn_dct)` from `helpers.py`: filter the
species table to the referenced names, assert that the filtered name set
equals the referenced set, interpolating `set(spc_df["name"]) - spc_set` into
the message on failure.  Rows are any type `alpha` with a `name_of` column
projection; the mechanism dictionary is iterated over its keys. -/
def species_for_mechanism {alpha P : Type} (name_of : alpha -> String)
    (spc : List alpha) (rxn_dct : List (RxnKey × P)) :
    Except Err (List alpha) :=
  if setEq
      ((spc.filter (fun r => decide (name_of r ∈ mechSpeciesNames rxn_dct))).map
        name_of)
      (mechSpeciesNames rxn_dct) then
    .ok (spc.filter (fun r => decide (name_of r ∈ mechSpeciesNames rxn_dct)))
  else
    .error (.assertionMsg (pySetDiff
      ((spc.filter (fun r => decide (name_of r ∈ mechSpeciesNames rxn_dct))).map
        name_of)
      (mechSpeciesNames rxn_dct)))

/-- The set the assertion message carries is provably always empty: the
filtered table's names are a subset of the referenced set, and the message
subtracts in the subset direction. -/
theorem species_for_mechanism_message_empty {alpha P : Type}
    (name_of : alpha -> String) (spc : List alpha)
    (rxn_dct : List (RxnKey × P)) (m : List String)
    (h : species_for_mechanism name_of spc rxn_dct = .error (.assertionMsg m)) :
    m = [] := by
  rw [species_for_mechanism] at h
  by_cases hif : setEq
      ((spc.filter (fun r => decide (name_of r ∈ mechSpeciesNames rxn_dct))).map
        name_of)
      (mechSpeciesNames rxn_dct) = true
  · rw [if_pos hif] at h
    exact absurd h (by simp)
  · rw [if_neg hif] at h
    have hm := Err.assertionMsg.inj (Except.error.inj h)
    rw [← hm, pySetDiff]
    have hnil :
        ((spc.filter (fun r =>
            decide (name_of r ∈ mechSpeciesNames rxn_dct))).map name_of).filter
          (fun x => decide (x ∉ mechSpeciesNames rxn_dct)) = [] := by
      apply List.filter_eq_nil_iff.mpr
      intro x hx
      obtain ⟨r, hr, hrx⟩ := List.mem_map.mp hx
      have := (List.mem_filter.mp hr).2
      simp only [decide_eq_true_eq] at this
      simp [← hrx, this]
    rw [hnil]
    rfl

/-- C1 (code bug): at a mechanism referencing `A` and `B` with a species table
containing only `A`, the call raises the assertion, but the interpolated
"Missing species" set is the empty set rather than `{"B"}` — the code
subtracts `set(spc_df["name"]) - spc_set`, which is always empty, instead of
`spc_set - set(spc_df["name"])`. -/
theorem C1_species_for_mechanism_bug :
    species_for_mechanism (fun r : String × Nat => r.1) [("A", 0)]
        [((["A"], ["B"], none), ())]
      = .error (.assertionMsg [])
    ∧ pySetDiff (mechSpeciesNames [((["A"], ["B"], (none : Option String)), ())])
        ["A"]
      = ["B"] := by
  decide

/-- An entry of the `params` column of a reaction table: a raw CHEMKIN string
or an already-parsed `autoreact.params.RxnParams` object (the object type `P`
is opaque). -/
inductive PEntry (P : Type) where
  | str (s : String)
  | obj (p : P)
deriving DecidableEq

def PEntry.isStr {P : Type} : PEntry P → Bool
  | .str _ => true
  | .obj _ => false

/-- `pandas.api.types.infer_dtype(col) == "string"`: the column is nonempty
and every entry is a string (`infer_dtype` answers `"empty"` on an empty
column and `"mixed"` once a non-string object appears). -/
def inferDtypeIsString {P : Type} (ps : List (PEntry P)) : Bool :=
  !ps.isEmpty && ps.all PEntry.isStr

/-- One application of `autoreact.params.RxnParams.from_string` (opaque `F`).
Under the string-dtype guard every entry is a `str`, so the `obj` branch is
unreachable when the source applies it. -/
def parseParam {P : Type} (F : String → P) : PEntry P → PEntry P
  | .str s => .obj (F s)
  | .obj p => .obj p

/-- `reactions_with_params_objects(rxn_df)` from `helpers.py`, restricted to
the `params` column it acts on: parse every entry when the column's inferred
dtype is string, otherwise leave the column alone. -/
def reactions_with_params_objects {P : Type} (F : String → P)
    (ps : List (PEntry P)) : List (PEntry P) :=
  if inferDtypeIsString ps = true then ps.map (parseParam F) else ps

/-- State-passing form of `reactions_with_params_objects`: the second
component is the caller's `params` column after the call
(`rxn_df["params"] = ...` assigns into the caller's frame, and the function
returns that same frame). -/
def reactions_with_params_objectsS {P : Type} (F : String → P)
    (ps : List (PEntry P)) : List (PEntry P) × List (PEntry P) :=
  if inferDtypeIsString ps = true then
    (ps.map (parseParam F), ps.map (parseParam F))
  else (ps, ps)

/-- C5: when the `params` column holds raw strings the function parses every
entry, and the function is idempotent — a second application is a no-op. -/
theorem C5_reactions_with_params_objects_idempotent {P : Type}
    (F : String → P) (ps : List (PEntry P)) :
    (inferDtypeIsString ps = true →
      reactions_with_params_objects F ps = ps.map (parseParam F))
    ∧ reactions_with_params_objects F (reactions_with_params_objects F ps)
        = reactions_with_params_objects F ps := by
  constructor
  · intro h
    rw [reactions_with_params_objects, if_pos h]
  · by_cases h : inferDtypeIsString ps = true
    · have hin : reactions_with_params_objects F ps = ps.map (parseParam F) := by
        rw [reactions_with_params_objects, if_pos h]
      rw [hin]
      have hfalse : inferDtypeIsString (ps.map (parseParam F)) = false := by
        cases ps with
        | nil => simp [inferDtypeIsString] at h
        | cons a t =>
          have hobj : PEntry.isStr (parseParam F a) = false := by
            cases a <;> rfl
          simp [inferDtypeIsString, hobj]
      rw [reactions_with_params_objects, if_neg (by simp [hfalse])]
    · have hin : reactions_with_params_objects F ps = ps := by
        rw [reactions_with_params_objects, if_neg h]
      rw [hin, hin]

/-- Witness for C5: a one-entry string column is parsed to the object form. -/
theorem C5_reactions_with_params_objects_idempotent_witness :
    inferDtypeIsString [PEntry.str (P := String) "p1"] = true
    ∧ reactions_with_params_objects (fun s => s) [PEntry.str "p1"]
        = [PEntry.obj "p1"] :=
  ⟨by decide,
    ((C5_reactions_with_params_objects_idempotent (fun s => s)
      [PEntry.str "p1"]).1 (by decide)).trans (by decide)⟩

/-- The species-attribute mapping `to_dict("index")` builds after
`set_index("name")`: index value paired with the remaining column cells. -/
abbrev SpcDict := List (Val × List (String × Val))

/-- Replace the cell of (the first occurrence of) column `k` in a row. -/
def setCell : List String → List Val → String → Val → List Val
  | [], _, _, _ => []
  | _ :: _, [], _, _ => []
  | c :: cs, v :: vs, k, w =>
    if c = k then w :: vs else v :: setCell cs vs k w

/-- pandas column assignment `df[c] = vs`: overwrite the column when the label
exists, otherwise append it. -/
def setColumn (df : DF) (c : String) (vs : List Val) : DF :=
  if c ∈ df.cols then
    ⟨df.cols, (df.rows.zip vs).map (fun p => setCell df.cols p.1 c p.2)⟩
  else ⟨df.cols ++ [c], (df.rows.zip vs).map (fun p => p.1 ++ [p.2])⟩

/-- The cells of one column, in row order. -/
def colValues (df : DF) (c : String) : List Val :=
  df.rows.map (fun r => getCell df.cols r c)

/-- State-passing form of `mechanism_string(rxn_dct, spc_df)` from
`helpers.py`: derive the formula column (`spc_df["fml"] = ...` assigns into
the caller's frame), deduplicate by name keeping the first occurrence, index
by name, and hand both mappings to the opaque CHEMKIN writer.  The first
component is the returned string, the second the caller's species frame after
the call. -/
def mechanism_stringS {P : Type} (formula : Val → Val)
    (writer : List (RxnKey × P) → SpcDict → String)
    (rxn_dct : List (RxnKey × P)) (df : DF) : String × DF :=
  let df1 := setColumn df "fml" ((colValues df "inchi").map formula)
  (writer rxn_dct
    ((dropDuplicatesBy (fun r => getCell df1.cols r "name") df1.rows).map
      (fun r =>
        (getCell df1.cols r "name",
          (df1.cols.zip r).filter (fun p => decide (p.1 ≠ "name"))))),
    df1)

/-- Counterexample to C6 as stated: both `reactions_with_params_objects` and
`mechanism_string` leave the caller's table changed after the call — the
`params` column now holds objects, and the species frame gained a `fml`
column. -/
theorem C6_no_mutation_counterexample :
    (reactions_with_params_objectsS (fun s => s) [PEntry.str "p1"]).2
      ≠ [PEntry.str "p1"]
    ∧ (mechanism_stringS (fun v => v) (fun _ _ => "")
        ([] : List (RxnKey × Unit))
        ⟨["name", "inchi"], [[some "A", some "IA"]]⟩).2
      ≠ ⟨["name", "inchi"], [[some "A", some "IA"]]⟩ := by
  decide

/-- C6 (amended): the lookup, merge, naming and species-selection helpers are
pure, but `reactions_with_params_objects` and `mechanism_string` mutate their
input frame in place: after the call the caller's `params` column equals the
parsed column (a genuine change whenever the dtype was string), and the
caller's species frame equals the input with the derived `fml` column written
into it (a new column when `fml` was absent). -/
theorem C6_in_place_mutation_amended {P : Type} (F : String → P)
    (ps : List (PEntry P)) (formula : Val → Val)
    (writer : List (RxnKey × P) → SpcDict → String)
    (rxn_dct : List (RxnKey × P)) (df : DF) :
    (reactions_with_params_objectsS F ps).2
        = reactions_with_params_objects F ps
    ∧ (inferDtypeIsString ps = false →
        (reactions_with_params_objectsS F ps).2 = ps)
    ∧ (inferDtypeIsString ps = true →
        (reactions_with_params_objectsS F ps).2 = ps.map (parseParam F))
    ∧ (mechanism_stringS formula writer rxn_dct df).2
        = setColumn df "fml" ((colValues df "inchi").map formula)
    ∧ ("fml" ∉ df.cols →
        ((mechanism_stringS formula writer rxn_dct df).2).cols
          = df.cols ++ ["fml"]) := by
  refine ⟨?_, ?_, ?_, rfl, ?_⟩
  · by_cases h : inferDtypeIsString ps = true
    · rw [reactions_with_params_objectsS, if_pos h,
        reactions_with_params_objects, if_pos h]
    · rw [reactions_with_params_objectsS, if_neg h,
        reactions_with_params_objects, if_neg h]
  · intro h
    rw [reactions_with_params_objectsS, if_neg (by simp [h])]
  · intro h
    rw [reactions_with_params_objectsS, if_pos h]
  · intro h
    show (setColumn df "fml" ((colValues df "inchi").map formula)).cols
      = df.cols ++ ["fml"]
    rw [setColumn, if_neg h]

/-- Witness for C6 (amended) on concrete one-row frames. -/
theorem C6_in_place_mutation_amended_witness :
    (reactions_with_params_objectsS (fun s => s) [PEntry.str "p1"]).2
      = [PEntry.str "p1"].map (parseParam (fun s => s))
    ∧ ((mechanism_stringS (fun v => v) (fun _ _ => "")
        ([] : List (RxnKey × String))
        ⟨["name", "inchi"], [[some "A", some "IA"]]⟩).2).cols
      = ["name", "inchi"] ++ ["fml"] :=
  ⟨(C6_in_place_mutation_amended (fun s => s) [PEntry.str "p1"] (fun v => v)
      (fun _ _ => "") ([] : List (RxnKey × String))
      ⟨["name", "inchi"], [[some "A", some "IA"]]⟩).2.2.1 (by decide),
    (C6_in_place_mutation_amended (fun s => s) [PEntry.str "p1"] (fun v => v)
      (fun _ _ => "") ([] : List (RxnKey × String))
      ⟨["name", "inchi"], [[some "A", some "IA"]]⟩).2.2.2.2 (by decide)⟩

/-- Python `dict.get(n)`: `none` when the key is absent. -/
def dictGet : List (String × String) → String → Option String
  | [], _ => none
  | (k, v) :: t, n => if k = n then some v else dictGet t n

/-- `chiral_reactant_count(name, chi_dct)` from `helpers.py`: parse the
reactant names and count the chiral ones, looking identifiers up with
`chi_dct.get` (an absent name simply passes `None` to the predicate).  The
body raises nothing, hence the unconditional `.ok`. -/
def chiral_reactant_count (E : Ext) (name : String)
    (d : List (String × String)) : Except Err Nat :=
  .ok (((E.get_rxn_name name).1.map
    (fun n => E.is_enantiomer (dictGet d n))).count true)

/-- One step of the list comprehension
`[racemic_species_name(n, chi_dct[n]) for n in names]`: the subscript raises
`KeyError` on a missing name. -/
def racLookup (E : Ext) (d : List (String × String)) (n : String) :
    Except Err String :=
  match dictGet d n with
  | none => .error (.keyError n)
  | some c => racemic_species_name E n (some c)

def racemic_reaction_core (E : Ext) (rn pn : List String)
    (tb : Option String) (d : List (String × String)) : Except Err String :=
  match mapME (racLookup E d) rn with
  | .error e => .error e
  | .ok rs =>
    match mapME (racLookup E d) pn with
    | .error e => .error e
    | .ok ps => .ok (E.format_rxn_name (rs, ps, tb))

/-- `racemic_reaction_name(name, chi_dct)` from `helpers.py`: racemize every
reactant and product name (indexing `chi_dct[n]` directly) and re-serialize. -/
def racemic_reaction_name (E : Ext) (name : String)
    (d : List (String × String)) : Except Err String :=
  racemic_reaction_core E (E.get_rxn_name name).1 (E.get_rxn_name name).2.1
    (E.get_rxn_name name).2.2 d

def reflect_reaction_core (E : Ext) (rn pn : List String)
    (tb : Option String) (d : List (String × String)) :
    Except Err (Option String) :=
  if E.is_enantiomer_reaction (rn.map (dictGet d)) (pn.map (dictGet d))
      = false then
    .ok none
  else
    match mapME (fun p : String × Option String =>
        reflect_species_name E p.1 p.2) (rn.zip (rn.map (dictGet d))) with
    | .error e => .error e
    | .ok rs =>
      match mapME (fun p : String × Option String =>
          reflect_species_name E p.1 p.2) (pn.zip (pn.map (dictGet d))) with
      | .error e => .error e
      | .ok ps => .ok (some (E.format_rxn_name (rs, ps, tb)))

/-- `reflect_reaction_name(name, chi_dct)` from `helpers.py`: `None` when the
reaction is not an enantiomer reaction, otherwise every species name on both
sides reflected (identifiers looked up with `.get`) and re-serialized with the
third body unchanged. -/
def reflect_reaction_name (E : Ext) (name : String)
    (d : List (String × String)) : Except Err (Option String) :=
  reflect_reaction_core E (E.get_rxn_name name).1 (E.get_rxn_name name).2.1
    (E.get_rxn_name name).2.2 d

/-- A comprehension over elements that all succeed succeeds. -/
theorem mapME_ok_of_all {α β : Type} (f : α → Except Err β) (l : List α)
    (h : ∀ a ∈ l, ∃ b, f a = .ok b) : ∃ bs, mapME f l = .ok bs := by
  induction l with
  | nil => exact ⟨[], rfl⟩
  | cons a t ih =>
    obtain ⟨b, hb⟩ := h a (List.mem_cons_self a t)
    obtain ⟨bs, hbs⟩ := ih (fun x hx => h x (List.mem_cons_of_mem a hx))
    rw [mapME, hb, hbs]
    exact ⟨b :: bs, rfl⟩

/-- A comprehension whose failing elements can only fail one way fails that
way. -/
theorem mapME_error_eq {α β : Type} (f : α → Except Err β) (l : List α)
    (h : ∀ a ∈ l, ∀ e, f a = .error e → e = .assertionError) :
    ∀ e, mapME f l = .error e → e = .assertionError := by
  induction l with
  | nil => intro e he; exact absurd he (by simp [mapME])
  | cons a t ih =>
    intro e he
    rw [mapME] at he
    cases hfa : f a with
    | error e0 =>
      rw [hfa] at he
      exact (Except.error.inj he) ▸ h a (List.mem_cons_self a t) e0 hfa
    | ok b =>
      rw [hfa] at he
      cases hmt : mapME f t with
      | error e1 =>
        rw [hmt] at he
        exact (Except.error.inj he) ▸
          ih (fun x hx => h x (List.mem_cons_of_mem a hx)) e1 hmt
      | ok bs =>
        rw [hmt] at he
        exact absurd he (by simp)

/-- When some name is missing from the dictionary and every present name
racemizes cleanly, the comprehension over `chi_dct[n]` raises `KeyError` on a
missing name. -/
theorem mapME_racLookup_keyError (E : Ext) (d : List (String × String))
    (l : List String) (hmiss : ∃ n ∈ l, dictGet d n = none)
    (hok : ∀ n ∈ l, ∀ c, dictGet d n = some c →
      ∃ v, racemic_species_name E n (some c) = .ok v) :
    ∃ m, mapME (racLookup E d) l = .error (.keyError m)
      ∧ dictGet d m = none := by
  induction l with
  | nil => simp at hmiss
  | cons a t ih =>
    cases hda : dictGet d a with
    | none =>
      refine ⟨a, ?_, hda⟩
      rw [mapME, racLookup, hda]
    | some c =>
      obtain ⟨v, hv⟩ := hok a (List.mem_cons_self a t) c hda
      have hfa : racLookup E d a = .ok v := by rw [racLookup, hda]; exact hv
      obtain ⟨n, hn, hdn⟩ := hmiss
      rcases List.mem_cons.mp hn with rfl | hn'
      · rw [hda] at hdn; exact absurd hdn (by simp)
      · obtain ⟨m, hm, hdm⟩ := ih ⟨n, hn', hdn⟩
          (fun x hx => hok x (List.mem_cons_of_mem a hx))
        refine ⟨m, ?_, hdm⟩
        rw [mapME, hfa, hm]

/-- `reflect_species_name` can only fail its own assertion. -/
theorem reflect_species_name_error_eq (E : Ext) (n : String)
    (c : Option String) (e : Err) (h : reflect_species_name E n c = .error e) :
    e = .assertionError := by
  rw [reflect_species_name] at h
  by_cases h1 : E.is_enantiomer c = false
  · rw [if_pos h1] at h; exact absurd h (by simp)
  · rw [if_neg h1] at h
    by_cases h2 : ends01 n
    · rw [if_pos h2] at h; exact absurd h (by simp)
    · rw [if_neg h2] at h
      exact (Except.error.inj h).symm

/-- C9: with a referenced species name absent from the identifier map (and
the present names racemizing cleanly), `racemic_reaction_name` raises a
`KeyError` because it subscripts the map directly, while
`chiral_reactant_count` returns normally and `reflect_reaction_name` never
raises a `KeyError` — both pass the absent identifier (`None`) to the
external chirality predicates via `.get`. -/
theorem C9_missing_identifier_lookup (E : Ext) (name : String)
    (d : List (String × String)) (rn pn : List String) (tb : Option String)
    (hparse : E.get_rxn_name name = (rn, pn, tb))
    (hmiss : ∃ n ∈ rn ++ pn, dictGet d n = none)
    (hok : ∀ n ∈ rn ++ pn, ∀ c, dictGet d n = some c →
      ∃ v, racemic_species_name E n (some c) = .ok v) :
    (∃ m, racemic_reaction_name E name d = .error (.keyError m)
      ∧ dictGet d m = none)
    ∧ (∃ k, chiral_reactant_count E name d = .ok k)
    ∧ (∀ m, reflect_reaction_name E name d ≠ .error (.keyError m)) := by
  refine ⟨?_, ⟨_, rfl⟩, ?_⟩
  · rw [racemic_reaction_name, hparse]
    simp only [racemic_reaction_core]
    by_cases hrm : ∃ n ∈ rn, dictGet d n = none
    · obtain ⟨m, hm, hdm⟩ := mapME_racLookup_keyError E d rn hrm
        (fun x hx => hok x (List.mem_append_left pn hx))
      rw [hm]
      exact ⟨m, rfl, hdm⟩
    · have hrn_ok : ∀ n ∈ rn, ∃ v, racLookup E d n = .ok v := by
        intro n hn
        cases hdn : dictGet d n with
        | none => exact absurd ⟨n, hn, hdn⟩ hrm
        | some c =>
          obtain ⟨v, hv⟩ := hok n (List.mem_append_left pn hn) c hdn
          exact ⟨v, by rw [racLookup, hdn]; exact hv⟩
      obtain ⟨rs, hrs⟩ := mapME_ok_of_all (racLookup E d) rn hrn_ok
      rw [hrs]
      have hpm : ∃ n ∈ pn, dictGet d n = none := by
        obtain ⟨n, hn, hdn⟩ := hmiss
        rcases List.mem_append.mp hn with h | h
        · exact absurd ⟨n, h, hdn⟩ hrm
        · exact ⟨n, h, hdn⟩
      obtain ⟨m, hm, hdm⟩ := mapME_racLookup_keyError E d pn hpm
        (fun x hx => hok x (List.mem_append_right rn hx))
      rw [hm]
      exact ⟨m, rfl, hdm⟩
  · intro m hc
    rw [reflect_reaction_name, hparse] at hc
    simp only [reflect_reaction_core] at hc
    by_cases hpred : E.is_enantiomer_reaction (rn.map (dictGet d))
        (pn.map (dictGet d)) = false
    · rw [if_pos hpred] at hc
      exact absurd hc (by simp)
    · rw [if_neg hpred] at hc
      cases hmr : mapME (fun p : String × Option String =>
          reflect_species_name E p.1 p.2) (rn.zip (rn.map (dictGet d))) with
      | error e =>
        rw [hmr] at hc
        have := mapME_error_eq _ _
          (fun a _ e0 h0 => reflect_species_name_error_eq E a.1 a.2 e0 h0)
          e hmr
        rw [Except.error.inj hc] at this
        exact absurd this (by simp)
      | ok rs =>
        rw [hmr] at hc
        cases hmp : mapME (fun p : String × Option String =>
            reflect_species_name E p.1 p.2) (pn.zip (pn.map (dictGet d))) with
        | error e =>
          rw [hmp] at hc
          have := mapME_error_eq _ _
            (fun a _ e0 h0 => reflect_species_name_error_eq E a.1 a.2 e0 h0)
            e hmp
          rw [Except.error.inj hc] at this
          exact absurd this (by simp)
        | ok ps =>
          rw [hmp] at hc
          exact absurd hc (by simp)

/-- A concrete collaborator whose parser references `A` and `B` with nothing
chiral, for the C9 witness. -/
def extMiss : Ext where
  is_enantiomer := fun _ => false
  is_enantiomer_reaction := fun _ _ => false
  get_rxn_name := fun _ => (["A"], ["B"], none)
  format_rxn_name := fun _ => ""

/-- Witness for C9: with only `A` in the identifier map, the racemic name
raises `KeyError("B")` while the reflection never raises a `KeyError`. -/
theorem C9_missing_identifier_lookup_witness :
    racemic_reaction_name extMiss "A=B" [("A", "x")]
      = .error (.keyError "B")
    ∧ reflect_reaction_name extMiss "A=B" [("A", "x")]
      ≠ .error (.keyError "B") :=
  ⟨by decide,
    (C9_missing_identifier_lookup extMiss "A=B" [("A", "x")] ["A"] ["B"] none
      rfl (by decide)
      (by
        intro n hn c hc
        rcases List.mem_cons.mp hn with rfl | hn'
        · refine ⟨"A", ?_⟩
          have : c = "x" := Option.some.inj ((by decide : dictGet
            [("A", "x")] "A" = some "x") ▸ hc).symm
          rw [this]
          decide
        · rcases List.mem_cons.mp hn' with rfl | hn''
          · rw [show dictGet [("A", "x")] "B" = none from rfl] at hc
            exact Option.noConfusion hc
          · exact absurd hn'' (List.not_mem_nil n))).2.2 "B"⟩

/-- C7: `reflect_reaction_name` answers "no mirror image" (`None`) exactly
when the external enantiomer-reaction predicate on the looked-up reactant
identifiers versus product identifiers is false; when the predicate is true
and both per-species reflections succeed, the result is the reaction
re-serialized from the reflected reactant and product names with the third
body unchanged. -/
theorem C7_reflect_reaction_name (E : Ext) (name : String)
    (d : List (String × String)) (rn pn : List String) (tb : Option String)
    (hparse : E.get_rxn_name name = (rn, pn, tb)) :
    (reflect_reaction_name E name d = .ok none ↔
      E.is_enantiomer_reaction (rn.map (dictGet d)) (pn.map (dictGet d))
        = false)
    ∧ (∀ rs ps,
        E.is_enantiomer_reaction (rn.map (dictGet d)) (pn.map (dictGet d))
          = true →
        mapME (fun p : String × Option String =>
          reflect_species_name E p.1 p.2) (rn.zip (rn.map (dictGet d)))
          = .ok rs →
        mapME (fun p : String × Option String =>
          reflect_species_name E p.1 p.2) (pn.zip (pn.map (dictGet d)))
          = .ok ps →
        reflect_reaction_name E name d
          = .ok (some (E.format_rxn_name (rs, ps, tb)))) := by
  rw [reflect_reaction_name, hparse]
  simp only
  constructor
  · constructor
    · intro h
      by_cases hpred : E.is_enantiomer_reaction (rn.map (dictGet d))
          (pn.map (dictGet d)) = false
      · exact hpred
      · exfalso
        rw [reflect_reaction_core, if_neg hpred] at h
        cases hmr : mapME (fun p : String × Option String =>
            reflect_species_name E p.1 p.2) (rn.zip (rn.map (dictGet d))) with
        | error e => rw [hmr] at h; exact absurd h (by simp)
        | ok rs =>
          rw [hmr] at h
          cases hmp : mapME (fun p : String × Option String =>
              reflect_species_name E p.1 p.2)
              (pn.zip (pn.map (dictGet d))) with
          | error e => rw [hmp] at h; exact absurd h (by simp)
          | ok ps =>
            rw [hmp] at h
            exact absurd (Except.ok.inj h) (by simp)
    · intro h
      rw [reflect_reaction_core, if_pos h]
  · intro rs ps hpred hrs hps
    rw [reflect_reaction_core, if_neg (by simp [hpred]), hrs, hps]

/-- A concrete collaborator for the C7 witness: `A1 + B0` is an enantiomer
reaction, with `c1`/`c2` chiral. -/
def extRxn : Ext where
  is_enantiomer := fun c => decide (c = some "c1" ∨ c = some "c2")
  is_enantiomer_reaction := fun r p => decide (r ≠ p)
  get_rxn_name := fun _ => (["A1"], ["B0"], some "M")
  format_rxn_name := fun t =>
    String.intercalate "+" t.1 ++ "=" ++ String.intercalate "+" t.2.1

/-- Witness for C7: the reflected reaction serializes `A0` and `B1` with the
third body unchanged. -/
theorem C7_reflect_reaction_name_witness :
    reflect_reaction_name extRxn "A1=B0" [("A1", "c1"), ("B0", "c2")]
      = .ok (some (extRxn.format_rxn_name (["A0"], ["B1"], some "M"))) :=
  (C7_reflect_reaction_name extRxn "A1=B0" [("A1", "c1"), ("B0", "c2")]
    ["A1"] ["B0"] (some "M") rfl).2 ["A0"] ["B1"]
    (by decide) (by decide) (by decide)

/-- C8: an empty predicate map makes `functools.reduce` fold an empty selector
list with no initial value, so `lookup_rows` raises rather than returning all
rows, and `lookup_row`, `lookup_value` and `lookup_value_series` (with an
empty map among its predicate maps) all fail in turn. -/
theorem C8_lookup_empty_predicates_raise (df : DF) (key : String)
    (cvss : List (List (String × Val))) (hmem : [] ∈ cvss) :
    lookup_rows df [] = .error .reduceEmptyError
    ∧ lookup_row df [] = .error .reduceEmptyError
    ∧ lookup_value df key [] = .error .reduceEmptyError
    ∧ ∃ e, lookup_value_series df key cvss = .error e := by
  refine ⟨rfl, rfl, rfl, ?_⟩
  have hrows : ∀ l : List (List (String × Val)), [] ∈ l →
      ∃ e, mapME (lookup_row df) l = .error e := by
    intro l hl
    induction l with
    | nil => simp at hl
    | cons c t ih =>
      cases hc : lookup_row df c with
      | error e => exact ⟨e, by rw [mapME, hc]⟩
      | ok r =>
        rcases List.mem_cons.mp hl with rfl | hl'
        · rw [show lookup_row df [] = .error .reduceEmptyError from rfl] at hc
          exact absurd hc (by simp)
        · obtain ⟨e, he⟩ := ih hl'
          exact ⟨e, by rw [mapME, hc, he]⟩
  obtain ⟨e, he⟩ := hrows cvss hmem
  rw [lookup_value_series, he]
  exact ⟨e, rfl⟩

/-- Witness for C8 on a one-row table, with `[[]]` as the predicate-map
series. -/
theorem C8_lookup_empty_predicates_raise_witness :
    lookup_rows ⟨["a"], [[some "1"]]⟩ [] = .error .reduceEmptyError
    ∧ lookup_value_series ⟨["a"], [[some "1"]]⟩ "a" [[]]
      = .error .reduceEmptyError :=
  ⟨(C8_lookup_empty_predicates_raise ⟨["a"], [[some "1"]]⟩ "a" [[]]
      (by decide)).1,
    by decide⟩

end RadicalStereo
